import Mathlib

/-!
Verification of the numeric core of `simulador_consorcio.py`.

Monetary amounts and rates are embedded as exact rationals (`ℚ`); the one
irrational operation in the source — the effective-annual-to-effective-monthly
rate conversion `(1 + juros_ano/100)**(1/12) - 1` — is embedded over `ℝ`
with `Real.rpow`.
-/

/-- `r_mens = (1 + juros_ano/100)**(1/12) - 1` (line 60 of the source):
effective annual percentage rate converted to an effective monthly rate. -/
noncomputable def r_mens (juros_ano : ℝ) : ℝ := (1 + juros_ano / 100) ^ ((1 : ℝ) / 12) - 1

/-- `PV = valor - entrada` (line 59): the financed principal. -/
def PV (valor entrada : ℚ) : ℚ := valor - entrada

/-- `A_price = PV * r_mens / (1 - (1 + r_mens)**(-n_fin))` (line 65):
the constant Price (Convention A) installment. -/
def A_price (P i : ℚ) (n : ℕ) : ℚ := P * i / (1 - (1 + i) ^ (-(n : ℤ)))

/-- The Price loop (lines 67-72): each month records the constant payment
`A` while the balance is reduced by the amortization `A - bal*i`. -/
def priceGo (A i : ℚ) : ℚ → ℕ → List ℚ
  | _, 0 => []
  | bal, k + 1 => A :: priceGo A i (bal - (A - bal * i)) k

/-- `df_price` (lines 66-72): the Price schedule, one payment per month. -/
def df_price (P i : ℚ) (n : ℕ) : List ℚ := priceGo (A_price P i n) i P n

/-- The remaining balance after `m` iterations of the Price loop
(lines 67-71): `bal -= A - bal*i` each month. -/
def priceBal (P i A : ℚ) : ℕ → ℚ
  | 0 => P
  | m + 1 => priceBal P i A m - (A - priceBal P i A m * i)

/-- Sum of the amortization amounts `am = A - bal*i` recovered over the
first `n` months of the Price loop (lines 69-71). -/
def amortSum (P i A : ℚ) (n : ℕ) : ℚ :=
  ∑ m in Finset.range n, (A - priceBal P i A m * i)

/-- The SAC loop (lines 74-81): constant amortization `amort`, payment
`amort + bal*r`, balance reduced by `amort` each month. -/
def sacGo (amort r : ℚ) : ℚ → ℕ → List ℚ
  | _, 0 => []
  | bal, k + 1 => (amort + bal * r) :: sacGo amort r (bal - amort) k

/-- `df_sac` (lines 74-81): the SAC schedule with `amort = PV / n_fin`. -/
def df_sac (P r : ℚ) (n : ℕ) : List ℚ := sacGo (P / n) r P n

-- Basic shape lemmas for the two loops.

theorem priceGo_eq_replicate (A i : ℚ) : ∀ (k : ℕ) (bal : ℚ),
    priceGo A i bal k = List.replicate k A := by
  intro k
  induction k with
  | zero => intro bal; rfl
  | succ k ih =>
      intro bal
      simp [priceGo, List.replicate, ih]

theorem df_price_eq_replicate (P i : ℚ) (n : ℕ) :
    df_price P i n = List.replicate n (A_price P i n) := by
  unfold df_price
  exact priceGo_eq_replicate _ _ _ _

theorem df_price_length (P i : ℚ) (n : ℕ) : (df_price P i n).length = n := by
  rw [df_price_eq_replicate]; simp

theorem sacGo_length (amort r : ℚ) : ∀ (k : ℕ) (bal : ℚ),
    (sacGo amort r bal k).length = k := by
  intro k
  induction k with
  | zero => intro bal; rfl
  | succ k ih => intro bal; simp [sacGo, ih]

theorem sacGo_getD (amort r : ℚ) : ∀ (k j : ℕ) (bal : ℚ), j < k →
    (sacGo amort r bal k).getD j 0 = amort + (bal - j * amort) * r := by
  intro k
  induction k with
  | zero => intro j bal h; omega
  | succ k ih =>
      intro j bal h
      cases j with
      | zero => simp [sacGo]
      | succ j =>
          have hj : j < k := by omega
          simp only [sacGo, List.getD_cons_succ]
          rw [ih j (bal - amort) hj]
          push_cast
          ring

-- Closed form of the Price balance and the telescoping amortization sum.

theorem priceBal_closed (P i A : ℚ) (hi : i ≠ 0) (m : ℕ) :
    priceBal P i A m = (1 + i) ^ m * P - A * ((1 + i) ^ m - 1) / i := by
  induction m with
  | zero => simp [priceBal]
  | succ m ih =>
      show priceBal P i A m - (A - priceBal P i A m * i) = _
      rw [ih]
      field_simp
      ring

theorem amortSum_eq (P i A : ℚ) (n : ℕ) :
    amortSum P i A n = P - priceBal P i A n := by
  induction n with
  | zero => simp [amortSum, priceBal]
  | succ n ih =>
      unfold amortSum
      rw [Finset.sum_range_succ]
      have h : ∑ m in Finset.range n, (A - priceBal P i A m * i) = amortSum P i A n := rfl
      rw [h, ih]
      show _ = P - (priceBal P i A n - (A - priceBal P i A n * i))
      ring

theorem priceBal_final_zero (P i : ℚ) (n : ℕ) (hi : 0 < i) (hn : 1 ≤ n) :
    priceBal P i (A_price P i n) n = 0 := by
  have h1i : (0 : ℚ) < 1 + i := by linarith
  have hx : 1 < (1 + i) ^ n := by
    apply one_lt_pow₀ (by linarith) (by omega)
  have hxne : (1 + i) ^ n ≠ 0 := by positivity
  have hx1 : (1 + i) ^ n - 1 ≠ 0 := by linarith
  have hA : A_price P i n = P * i * (1 + i) ^ n / ((1 + i) ^ n - 1) := by
    unfold A_price
    rw [zpow_neg, zpow_natCast]
    have hrw : 1 - ((1 + i) ^ n)⁻¹ = ((1 + i) ^ n - 1) / (1 + i) ^ n := by
      field_simp
    rw [hrw, div_div_eq_mul_div]
  rw [priceBal_closed P i _ (ne_of_gt hi) n, hA]
  field_simp
  ring

-- ── Consortium schedule (lines 86-100) ─────────────────────────────────────

/-- `base_cons = valor * 1.23 / prazo_cons` (line 86): base installment with
the 20% admin + 3% reserve markup. -/
def base_cons (valor : ℚ) (prazo : ℕ) : ℚ := valor * (123 / 100) / prazo

/-- `factors = [fator_anual ** ((m-1)//12) for m in range(1, prazo_cons+1)]`
(line 98): the annual factor raised to the 0-indexed 12-month block. -/
def factors (fator : ℚ) (prazo : ℕ) : List ℚ :=
  (List.range prazo).map (fun k => fator ^ (k / 12))

/-- `parc_cons = [base_cons * f for f in factors]` (line 99). -/
def parc_cons (valor : ℚ) (prazo : ℕ) (fator : ℚ) : List ℚ :=
  (factors fator prazo).map (fun f => base_cons valor prazo * f)

/-- `last12 = idx_series[-12:]` (line 95): the trailing 12 monthly index
factors; Python slicing returns the whole series when it is shorter than 12. -/
def last12 (xs : List ℚ) : List ℚ := List.drop (xs.length - 12) xs

/-- `fator_anual = last12.prod()` (line 96): annual factor from the
index-driven branch. -/
def fator_anual_idx (xs : List ℚ) : ℚ := (last12 xs).prod

theorem getD_map_range (g : ℕ → ℚ) (n k : ℕ) (h : k < n) :
    ((List.range n).map g).getD k 0 = g k := by
  rw [List.getD_eq_getElem?_getD, List.getElem?_map, List.getElem?_range h]
  rfl

theorem parc_cons_getD (valor : ℚ) (prazo : ℕ) (fator : ℚ) (k : ℕ) (h : k < prazo) :
    (parc_cons valor prazo fator).getD k 0 =
      base_cons valor prazo * fator ^ (k / 12) := by
  unfold parc_cons factors
  rw [List.map_map]
  exact getD_map_range _ _ _ h

theorem parc_cons_length (valor : ℚ) (prazo : ℕ) (fator : ℚ) :
    (parc_cons valor prazo fator).length = prazo := by
  unfold parc_cons factors
  simp

-- ── NPV (lines 130-134) ────────────────────────────────────────────────────

/-- `npv = sum(cf[t]/((1+r)**t) for t in range(L))` (lines 133-134). -/
def npv (cf : List ℚ) (r : ℚ) : ℚ :=
  ((List.range cf.length).map (fun t => cf.getD t 0 / (1 + r) ^ t)).sum

/-- Recursive form of the same discounted sum, used for the proofs. -/
def npvRec : List ℚ → ℚ → ℚ
  | [], _ => 0
  | c :: cs, r => c + npvRec cs r / (1 + r)

theorem list_sum_map_range_eq_finset (g : ℕ → ℚ) (n : ℕ) :
    ((List.range n).map g).sum = ∑ t in Finset.range n, g t := by
  induction n with
  | zero => simp
  | succ n ih => rw [List.range_succ, Finset.sum_range_succ, List.map_append, List.sum_append, ih]; simp

theorem npv_eq_npvRec (cf : List ℚ) (r : ℚ) : npv cf r = npvRec cf r := by
  induction cf generalizing r with
  | nil => simp [npv, npvRec]
  | cons c cs ih =>
      have hs : npv (c :: cs) r
          = (∑ t in Finset.range cs.length,
              cs.getD t 0 / (1 + r) ^ (t + 1)) + c := by
        unfold npv
        rw [list_sum_map_range_eq_finset, List.length_cons, Finset.sum_range_succ']
        simp only [List.getD_cons_succ, List.getD_cons_zero, pow_zero, div_one]
      have ht : ∑ t in Finset.range cs.length, cs.getD t 0 / (1 + r) ^ (t + 1)
          = (∑ t in Finset.range cs.length, cs.getD t 0 / (1 + r) ^ t) / (1 + r) := by
        rw [Finset.sum_div]
        refine Finset.sum_congr rfl (fun t _ => ?_)
        rw [pow_succ, ← div_div]
      have hn : npv cs r = ∑ t in Finset.range cs.length, cs.getD t 0 / (1 + r) ^ t := by
        unfold npv
        rw [list_sum_map_range_eq_finset]
      rw [hs, ht, ← hn, npvRec, ← ih r]
      ring

-- NPV sign and monotonicity helpers.

theorem div_le_div_of_nonpos_left (x a b : ℚ) (hx : x ≤ 0) (ha : 0 < a) (hab : a ≤ b) :
    x / a ≤ x / b := by
  have hb : 0 < b := lt_of_lt_of_le ha hab
  rw [div_le_div_iff₀ ha hb]
  nlinarith

theorem div_lt_div_of_neg_left (x a b : ℚ) (hx : x < 0) (ha : 0 < a) (hab : a < b) :
    x / a < x / b := by
  have hb : 0 < b := lt_trans ha hab
  rw [div_lt_div_iff₀ ha hb]
  nlinarith

theorem npvRec_nonpos (cs : List ℚ) (r : ℚ) (hcs : ∀ c ∈ cs, c ≤ 0) (hr : 0 ≤ r) :
    npvRec cs r ≤ 0 := by
  induction cs with
  | nil => simp [npvRec]
  | cons c cs ih =>
      have hc : c ≤ 0 := hcs c (List.mem_cons_self c cs)
      have htail : npvRec cs r ≤ 0 := ih (fun x hx => hcs x (List.mem_cons_of_mem c hx))
      have h1r : (0 : ℚ) < 1 + r := by linarith
      have : npvRec cs r / (1 + r) ≤ 0 := div_nonpos_of_nonpos_of_nonneg htail h1r.le
      show c + npvRec cs r / (1 + r) ≤ 0
      linarith

theorem npvRec_neg (cs : List ℚ) (r : ℚ) (hne : cs ≠ []) (hcs : ∀ c ∈ cs, c < 0)
    (hr : 0 ≤ r) : npvRec cs r < 0 := by
  cases cs with
  | nil => exact absurd rfl hne
  | cons c cs =>
      have hc : c < 0 := hcs c (List.mem_cons_self c cs)
      have htail : npvRec cs r ≤ 0 :=
        npvRec_nonpos cs r (fun x hx => (hcs x (List.mem_cons_of_mem c hx)).le) hr
      have h1r : (0 : ℚ) < 1 + r := by linarith
      have : npvRec cs r / (1 + r) ≤ 0 := div_nonpos_of_nonpos_of_nonneg htail h1r.le
      show c + npvRec cs r / (1 + r) < 0
      linarith

theorem npvRec_mono (cs : List ℚ) (r1 r2 : ℚ) (hcs : ∀ c ∈ cs, c ≤ 0)
    (hr1 : 0 ≤ r1) (hr12 : r1 ≤ r2) : npvRec cs r1 ≤ npvRec cs r2 := by
  induction cs with
  | nil => simp [npvRec]
  | cons c cs ih =>
      have htail1 : npvRec cs r1 ≤ 0 :=
        npvRec_nonpos cs r1 (fun x hx => hcs x (List.mem_cons_of_mem c hx)) hr1
      have hmono : npvRec cs r1 ≤ npvRec cs r2 :=
        ih (fun x hx => hcs x (List.mem_cons_of_mem c hx))
      have h1 : (0 : ℚ) < 1 + r1 := by linarith
      have h2 : (0 : ℚ) < 1 + r2 := by linarith
      have step1 : npvRec cs r1 / (1 + r1) ≤ npvRec cs r1 / (1 + r2) :=
        div_le_div_of_nonpos_left _ _ _ htail1 h1 (by linarith)
      have step2 : npvRec cs r1 / (1 + r2) ≤ npvRec cs r2 / (1 + r2) := by
        rw [div_le_div_iff₀ h2 h2]
        nlinarith
      show c + npvRec cs r1 / (1 + r1) ≤ c + npvRec cs r2 / (1 + r2)
      linarith

-- ── Python-float model for the IRR/display pipeline (lines 137-163) ────────

/-- A Python float as the display pipeline sees it: a finite value or NaN. -/
inductive PyFloat
  | num (q : ℚ)
  | nan
deriving DecidableEq

/-- Python truthiness of a float: `0.0` is falsy, every other float —
including NaN — is truthy. -/
def PyFloat.truthy : PyFloat → Bool
  | .num q => decide (q ≠ 0)
  | .nan => true

/-- `(1 + irr)**12 - 1` (lines 139-140, 149, 155): annualization of a
monthly rate; NaN propagates through the arithmetic. -/
def PyFloat.annualize : PyFloat → PyFloat
  | .num q => .num ((1 + q) ^ 12 - 1)
  | .nan => .nan

/-- `cf.all same sign`: no sign change, hence no internal rate of return
with `1 + r > 0` exists. -/
def sameSign (cf : List ℚ) : Bool :=
  cf.all (fun c => decide (0 ≤ c)) || cf.all (fun c => decide (c ≤ 0))

/-- Modelled from the spec: the root-finder `nf.irr` (external
`numpy_financial`, called at lines 137-138, 148, 154, not part of this
repository) returns NaN when the cash flow has no sign change (no IRR
exists); when it converges it returns the numeric root, which we pass in
as the parameter `root`. -/
def irrResult (cf : List ℚ) (root : ℚ) : PyFloat :=
  if sameSign cf then .nan else .num root

/-- `tir_fin = (1+irr_fin)**12-1 if irr_fin else None` (line 139): the
annualized rate is produced only when the raw IRR value is truthy. -/
def tir_fin (irr : PyFloat) : Option PyFloat :=
  if irr.truthy then some irr.annualize else none

/-- `f"{x*100:.2f}%"` (lines 160-163): percentage rendering; a NaN float
formats as `"nan"`. The exact decimal formatting of finite values is
immaterial to the claims and is rendered via `toString`. -/
def pctRender : PyFloat → String
  | .num q => toString (q * 100) ++ "%"
  | .nan => "nan%"

/-- `st.metric("TIR ...", f"..." if tir else "—")` (lines 160-163): the
dash is shown exactly when the stored value is falsy (None or 0.0). -/
def metricTIR : Option PyFloat → String
  | none => "—"
  | some x => if x.truthy then pctRender x else "—"

-- ── Gap sequence (lines 166-171) and the escrow simulation ─────────────────

/-- `f or 0` (line 170): a padded `None` entry contributes 0. -/
def orZero : Option ℚ → ℚ
  | none => 0
  | some q => q

/-- `fin_p = list(...) + [None]*(length-len(...))` (lines 168-169): pad a
schedule to the common length with `None`. -/
def padNone (xs : List ℚ) (len : ℕ) : List (Option ℚ) :=
  xs.map some ++ List.replicate (len - xs.length) none

/-- `gap = [(f or 0)-(c or 0) for f,c in zip(fin_p,cons_p)]` (line 170):
the month-by-month payment difference between the two schedules. -/
def gapSeq (a b : List ℚ) : List ℚ :=
  List.zipWith (fun f c => orZero f - orZero c)
    (padNone a (max a.length b.length)) (padNone b (max a.length b.length))

/-- Modelled from the spec: the gap-investment escrow simulation of spec
§4.4 is absent from `src/simulador_consorcio.py` (the script only computes
the gap and its sign-flip months, lines 166-171).  Per §4.4 the balance
evolves as `balance_after = balance_before + interest + gap` with
`interest = balance_before * monthly_yield_rate`, starting from 0. -/
def escrowGo (y : ℚ) : ℚ → List ℚ → List ℚ
  | _, [] => []
  | bal, g :: gs => (bal + bal * y + g) :: escrowGo y (bal + bal * y + g) gs

/-- Modelled from the spec: month-by-month escrow balances (spec §4.4),
starting from a balance of 0. -/
def escrowBalances (gaps : List ℚ) (y : ℚ) : List ℚ := escrowGo y 0 gaps

/-- Modelled from the spec: break-even search of spec §4.4 — the first
month whose balance after accrual and gap is ≤ 0 — with the §8 boundary
rule that a month whose gap is zero (so the balance merely sat unchanged
at 0) does not count as break-even. -/
def breakEvenGo (y : ℚ) : ℕ → ℚ → List ℚ → Option ℕ
  | _, _, [] => none
  | m, bal, g :: gs =>
      if bal + bal * y + g ≤ 0 ∧ g ≠ 0 then some m
      else breakEvenGo y (m + 1) (bal + bal * y + g) gs

/-- Modelled from the spec: break-even month (1-indexed) of spec §4.4,
`none` when it never occurs. -/
def breakEven (gaps : List ℚ) (y : ℚ) : Option ℕ := breakEvenGo y 1 0 gaps

theorem zipWith_sub_self (s : List ℚ) :
    List.zipWith (fun f c => orZero f - orZero c) (s.map some) (s.map some)
      = List.replicate s.length 0 := by
  induction s with
  | nil => rfl
  | cons a s ih =>
      show (orZero (some a) - orZero (some a)) :: _ = _
      rw [List.length_cons, List.replicate, ih]
      simp [orZero]

theorem gapSeq_self (s : List ℚ) : gapSeq s s = List.replicate s.length 0 := by
  unfold gapSeq padNone
  rw [max_self, Nat.sub_self]
  simp only [List.replicate, List.append_nil]
  exact zipWith_sub_self s

theorem escrowGo_zero (y : ℚ) (n : ℕ) :
    escrowGo y 0 (List.replicate n 0) = List.replicate n 0 := by
  induction n with
  | zero => rfl
  | succ n ih =>
      show (0 + 0 * y + 0) :: escrowGo y (0 + 0 * y + 0) (List.replicate n 0)
        = 0 :: List.replicate n 0
      have h : (0 : ℚ) + 0 * y + 0 = 0 := by ring
      rw [h, ih]

theorem breakEvenGo_zero (y : ℚ) (n : ℕ) : ∀ m : ℕ,
    breakEvenGo y m 0 (List.replicate n 0) = none := by
  induction n with
  | zero => intro m; rfl
  | succ n ih =>
      intro m
      show (if (0 : ℚ) + 0 * y + 0 ≤ 0 ∧ (0 : ℚ) ≠ 0 then some m
            else breakEvenGo y (m + 1) (0 + 0 * y + 0) (List.replicate n 0)) = none
      have h : (0 : ℚ) + 0 * y + 0 = 0 := by ring
      rw [if_neg (by simp), h, ih]

-- ── Claim theorems ─────────────────────────────────────────────────────────

theorem r_mens_409500 : r_mens 409500 = 1 := by
  unfold r_mens
  rw [show (1 : ℝ) + 409500 / 100 = 2 ^ ((12 : ℕ) : ℝ) by
    rw [Real.rpow_natCast]; norm_num]
  rw [← Real.rpow_mul (by norm_num : (0 : ℝ) ≤ 2)]
  rw [show ((12 : ℕ) : ℝ) * ((1 : ℝ) / 12) = 1 by push_cast; ring]
  rw [Real.rpow_one]
  norm_num

/-- C1: under Convention A (Price) every month in 1..n gets the identical
payment `P*i/(1-(1+i)^(-n))`, and with monthly rate `i = (1+r)^(1/12)-1 > 0`
the recovered amortizations sum exactly to the principal, leaving a final
balance of exactly 0 (the exact-rational counterpart of the source's
floating-point tolerance). -/
theorem C1_price_schedule_correct (P i : ℚ) (juros : ℝ) (n : ℕ)
    (hP : 0 ≤ P) (hj : 0 ≤ juros) (hconv : (i : ℝ) = r_mens juros)
    (hi : 0 < i) (hn : 1 ≤ n) :
    df_price P i n = List.replicate n (A_price P i n) ∧
    amortSum P i (A_price P i n) n = P ∧
    priceBal P i (A_price P i n) n = 0 := by
  refine ⟨df_price_eq_replicate P i n, ?_, priceBal_final_zero P i n hi hn⟩
  rw [amortSum_eq, priceBal_final_zero P i n hi hn, sub_zero]

/-- Witness for C1 at `P = 100`, annual rate 409500% (whose effective
monthly rate is exactly 1), term 1. -/
theorem C1_price_schedule_correct_witness :
    (0 : ℚ) ≤ 100 ∧ (0 : ℝ) ≤ 409500 ∧ ((1 : ℚ) : ℝ) = r_mens 409500 ∧
    (0 : ℚ) < 1 ∧ 1 ≤ 1 ∧
    (df_price 100 1 1 = List.replicate 1 (A_price 100 1 1) ∧
     amortSum 100 1 (A_price 100 1 1) 1 = 100 ∧
     priceBal 100 1 (A_price 100 1 1) 1 = 0) := by
  have hconv : ((1 : ℚ) : ℝ) = r_mens 409500 := by
    rw [r_mens_409500]; norm_num
  exact ⟨by norm_num, by norm_num, hconv, by norm_num, le_refl 1,
    C1_price_schedule_correct 100 1 409500 1 (by norm_num) (by norm_num) hconv
      (by norm_num) (le_refl 1)⟩

/-- C6: the Convention B (SAC) schedule has constant amortization `P/n`
each month, each payment is the remaining balance times `r` plus that
amortization, and consecutive payments never increase (strictly decrease
whenever the principal is positive). -/
theorem C6_sac_schedule (P r : ℚ) (n : ℕ) (hP : 0 ≤ P) (hn : 1 ≤ n) (hr : 0 < r) :
    (∀ k, k < n → (df_sac P r n).getD k 0 = (P - k * (P / n)) * r + P / n) ∧
    (∀ k : ℕ, (P - k * (P / n)) - (P - (k + 1 : ℕ) * (P / n)) = P / n) ∧
    (∀ k, k + 1 < n → (df_sac P r n).getD (k + 1) 0 ≤ (df_sac P r n).getD k 0) ∧
    (0 < P → ∀ k, k + 1 < n → (df_sac P r n).getD (k + 1) 0 < (df_sac P r n).getD k 0) := by
  have hnq : (0 : ℚ) < (n : ℚ) := by
    have : 0 < n := by omega
    exact_mod_cast this
  have hget : ∀ k, k < n → (df_sac P r n).getD k 0 = (P - k * (P / n)) * r + P / n := by
    intro k hk
    unfold df_sac
    rw [sacGo_getD (P / n) r n k P hk]
    ring
  refine ⟨hget, ?_, ?_, ?_⟩
  · intro k; push_cast; ring
  · intro k hk
    rw [hget (k + 1) hk, hget k (by omega)]
    have ha : 0 ≤ P / n := div_nonneg hP hnq.le
    have : 0 ≤ (P / n) * r := mul_nonneg ha hr.le
    push_cast
    nlinarith
  · intro hPpos k hk
    rw [hget (k + 1) hk, hget k (by omega)]
    have ha : 0 < P / n := div_pos hPpos hnq
    have : 0 < (P / n) * r := mul_pos ha hr
    push_cast
    nlinarith

/-- Witness for C6 at `P = 100`, `n = 3`, `r = 1`. -/
theorem C6_sac_schedule_witness :
    (0 : ℚ) ≤ 100 ∧ 1 ≤ 3 ∧ (0 : ℚ) < 1 ∧
    (∀ k, k < 3 → (df_sac 100 1 3).getD k 0 = (100 - k * (100 / 3)) * 1 + 100 / 3) ∧
    (∀ k, k + 1 < 3 → (df_sac 100 1 3).getD (k + 1) 0 ≤ (df_sac 100 1 3).getD k 0) := by
  obtain ⟨h1, _, h3, _⟩ :=
    C6_sac_schedule 100 1 3 (by norm_num) (by norm_num) (by norm_num)
  exact ⟨by norm_num, by norm_num, by norm_num, h1, h3⟩

/-- C2 (amended): every consortium payment is
`(V*1.23/n) * f^((m-1)/12)`; months 1 and 12 share one block so their
payments coincide; month 13's payment strictly exceeds month 1's when
`f > 1` **and the total value is positive**; and in the concrete scenario
V = 500000, n = 200, f = 1.05 the month-1 payment is 3075 and the month-13
payment is 3228.75. -/
theorem C2_consortium_schedule (V : ℚ) (n : ℕ) (f : ℚ) (hf : 1 ≤ f) (hn : 1 ≤ n) :
    (∀ k, k < n → (parc_cons V n f).getD k 0 = V * (123 / 100) / n * f ^ (k / 12)) ∧
    (12 ≤ n → (parc_cons V n f).getD 11 0 = (parc_cons V n f).getD 0 0) ∧
    (13 ≤ n → 1 < f → 0 < V →
      (parc_cons V n f).getD 0 0 < (parc_cons V n f).getD 12 0) ∧
    (parc_cons 500000 200 (21 / 20)).getD 0 0 = 3075 ∧
    (parc_cons 500000 200 (21 / 20)).getD 12 0 = 3228.75 := by
  refine ⟨?_, ?_, ?_, ?_, ?_⟩
  · intro k hk
    rw [parc_cons_getD V n f k hk]
    rfl
  · intro h12
    rw [parc_cons_getD V n f 11 (by omega), parc_cons_getD V n f 0 (by omega)]
  · intro h13 hf1 hV
    rw [parc_cons_getD V n f 0 (by omega), parc_cons_getD V n f 12 (by omega)]
    have hnq : (0 : ℚ) < (n : ℚ) := by
      have : 0 < n := by omega
      exact_mod_cast this
    have hbase : 0 < base_cons V n := by
      unfold base_cons
      positivity
    show base_cons V n * f ^ (0 / 12) < base_cons V n * f ^ (12 / 12)
    norm_num
    exact (lt_mul_iff_one_lt_right hbase).mpr hf1
  · rw [parc_cons_getD 500000 200 (21 / 20) 0 (by norm_num)]
    norm_num [base_cons]
  · rw [parc_cons_getD 500000 200 (21 / 20) 12 (by norm_num)]
    norm_num [base_cons]

/-- Witness for C2 at the spec's concrete scenario V = 500000, n = 200,
f = 1.05. -/
theorem C2_consortium_schedule_witness :
    (1 : ℚ) ≤ 21 / 20 ∧ 1 ≤ 200 ∧
    (parc_cons 500000 200 (21 / 20)).getD 0 0 = 3075 ∧
    (parc_cons 500000 200 (21 / 20)).getD 12 0 = 3228.75 := by
  obtain ⟨_, _, _, h4, h5⟩ :=
    C2_consortium_schedule 500000 200 (21 / 20) (by norm_num) (by norm_num)
  exact ⟨by norm_num, by norm_num, h4, h5⟩

/-- Counterexample for C2 as frozen: at total value V = 0 (term 13, factor
1.05 > 1) every payment is 0, so the month-13 payment is not strictly
greater than the month-1 payment. -/
theorem C2_consortium_schedule_counterexample :
    (1 : ℚ) ≤ 21 / 20 ∧ (1 : ℕ) ≤ 13 ∧ (1 : ℚ) < 21 / 20 ∧
    ¬ ((parc_cons 0 13 (21 / 20)).getD 0 0 < (parc_cons 0 13 (21 / 20)).getD 12 0) := by
  refine ⟨by norm_num, by norm_num, by norm_num, ?_⟩
  rw [parc_cons_getD 0 13 (21 / 20) 0 (by norm_num),
    parc_cons_getD 0 13 (21 / 20) 12 (by norm_num)]
  norm_num [base_cons]

/-- C5 (amended): for a cash flow with a positive month-0 inflow and
negative subsequent entries, the NPV is strictly *increasing* in the
discount rate `r ≥ 0` (the frozen claim said decreasing). -/
theorem C5_npv_monotone_amended (c0 : ℚ) (cs : List ℚ) (r1 r2 : ℚ)
    (h0 : 0 < c0) (hne : cs ≠ []) (hneg : ∀ c ∈ cs, c < 0)
    (hr1 : 0 ≤ r1) (hr12 : r1 < r2) :
    npv (c0 :: cs) r1 < npv (c0 :: cs) r2 := by
  rw [npv_eq_npvRec, npv_eq_npvRec]
  show c0 + npvRec cs r1 / (1 + r1) < c0 + npvRec cs r2 / (1 + r2)
  have h1 : (0 : ℚ) < 1 + r1 := by linarith
  have h2 : (0 : ℚ) < 1 + r2 := by linarith
  have hneg1 : npvRec cs r1 < 0 := npvRec_neg cs r1 hne hneg hr1
  have hmono : npvRec cs r1 ≤ npvRec cs r2 :=
    npvRec_mono cs r1 r2 (fun c hc => (hneg c hc).le) hr1 hr12.le
  have s1 : npvRec cs r1 / (1 + r1) < npvRec cs r1 / (1 + r2) :=
    div_lt_div_of_neg_left _ _ _ hneg1 h1 (by linarith)
  have s2 : npvRec cs r1 / (1 + r2) ≤ npvRec cs r2 / (1 + r2) := by
    rw [div_le_div_iff₀ h2 h2]
    nlinarith
  linarith

/-- Witness for C5 (amended) at cash flow `[200, -80]`, rates 0 and 2. -/
theorem C5_npv_monotone_amended_witness :
    (0 : ℚ) < 200 ∧ ([(-80 : ℚ)] ≠ []) ∧ (∀ c ∈ [(-80 : ℚ)], c < 0) ∧
    (0 : ℚ) ≤ 0 ∧ (0 : ℚ) < 2 ∧
    npv [200, -80] 0 < npv [200, -80] 2 := by
  refine ⟨by norm_num, by simp, ?_, le_refl 0, by norm_num, ?_⟩
  · intro c hc
    simp only [List.mem_singleton] at hc
    rw [hc]; norm_num
  · exact C5_npv_monotone_amended 200 [-80] 0 2 (by norm_num) (by simp)
      (by intro c hc; simp only [List.mem_singleton] at hc; rw [hc]; norm_num)
      (le_refl 0) (by norm_num)

/-- Counterexample for C5 as frozen: the cash flow `[100, -50]` has a
positive month-0 inflow and a negative month-1 outflow, yet its NPV grows
from 50 at rate 0 to 75 at rate 1 — NPV is not decreasing in the rate. -/
theorem C5_npv_decreasing_counterexample :
    (0 : ℚ) < 100 ∧ ((-50 : ℚ) < 0) ∧ (0 : ℚ) ≤ 0 ∧ (0 : ℚ) < 1 ∧
    npv [100, -50] 0 = 50 ∧ npv [100, -50] 1 = 75 ∧
    ¬ (npv [100, -50] 1 ≤ npv [100, -50] 0) := by
  have h0 : npv [100, -50] 0 = 50 := by
    rw [npv_eq_npvRec]
    show (100 : ℚ) + ((-50) + 0 / (1 + 0)) / (1 + 0) = 50
    norm_num
  have h1 : npv [100, -50] 1 = 75 := by
    rw [npv_eq_npvRec]
    show (100 : ℚ) + ((-50) + 0 / (1 + 1)) / (1 + 1) = 75
    norm_num
  refine ⟨by norm_num, by norm_num, le_refl 0, by norm_num, h0, h1, ?_⟩
  rw [h0, h1]
  norm_num

/-- C4 (amended): when the index series holds fewer than 12 observations
the code does not fail — the trailing slice `[-12:]` silently returns all
available observations, the annual factor is their product, and the
consortium schedule is still produced with one payment per month. -/
theorem C4_insufficient_index_amended (xs : List ℚ) (h : xs.length < 12) :
    last12 xs = xs ∧ fator_anual_idx xs = xs.prod ∧
    ∀ (V : ℚ) (n : ℕ), (parc_cons V n (fator_anual_idx xs)).length = n := by
  have hdrop : xs.length - 12 = 0 := by omega
  have hlast : last12 xs = xs := by
    unfold last12
    rw [hdrop, List.drop_zero]
  refine ⟨hlast, ?_, fun V n => parc_cons_length V n _⟩
  unfold fator_anual_idx
  rw [hlast]

/-- Witness for C4 (amended) at the 2-observation series `[3, 1/2]`. -/
theorem C4_insufficient_index_amended_witness :
    ([3, 1/2] : List ℚ).length < 12 ∧ last12 [3, 1/2] = [3, 1/2] ∧
    fator_anual_idx [3, 1/2] = ([3, 1/2] : List ℚ).prod ∧
    (parc_cons 1000 5 (fator_anual_idx [3, 1/2])).length = 5 := by
  have h : ([3, 1/2] : List ℚ).length < 12 := by norm_num
  obtain ⟨h1, h2, h3⟩ := C4_insufficient_index_amended [3, 1/2] h
  exact ⟨h, h1, h2, h3 1000 5⟩

/-- Counterexample for C4 as frozen: with only 2 index observations
`[2, 3]`, the annual factor is computed anyway (their product, 6) and a
13-month consortium schedule is produced — no `InsufficientIndexData`
failure exists in the code. -/
theorem C4_insufficient_index_counterexample :
    ([2, 3] : List ℚ).length < 12 ∧ fator_anual_idx [2, 3] = 6 ∧
    (parc_cons 500000 13 (fator_anual_idx [2, 3])).length = 13 := by
  refine ⟨by norm_num, ?_, parc_cons_length _ _ _⟩
  unfold fator_anual_idx last12
  norm_num

/-- C8 (amended): no `InvalidParameter` rejection exists — when the down
payment exceeds the total value the principal `PV = valor - entrada` is
negative, yet the full Price schedule is still computed from it (every
month carrying the annuity value of the negative principal). -/
theorem C8_no_validation_amended (valor entrada i : ℚ) (n : ℕ)
    (h : valor < entrada) :
    PV valor entrada < 0 ∧
    df_price (PV valor entrada) i n
      = List.replicate n (A_price (PV valor entrada) i n) := by
  constructor
  · unfold PV; linarith
  · exact df_price_eq_replicate _ _ _

/-- Witness for C8 (amended) at valor = 50000, entrada = 80000, rate 1/50,
term 7. -/
theorem C8_no_validation_amended_witness :
    (50000 : ℚ) < 80000 ∧ PV 50000 80000 < 0 ∧
    df_price (PV 50000 80000) (1 / 50) 7
      = List.replicate 7 (A_price (PV 50000 80000) (1 / 50) 7) := by
  obtain ⟨h1, h2⟩ := C8_no_validation_amended 50000 80000 (1 / 50) 7 (by norm_num)
  exact ⟨by norm_num, h1, h2⟩

/-- Counterexample for C8 as frozen: valor = 100000 with entrada = 200000
gives the negative principal −100000, and a full 10-month schedule is
computed from it instead of any rejection. -/
theorem C8_no_validation_counterexample :
    PV 100000 200000 = -100000 ∧ PV 100000 200000 < 0 ∧
    (df_price (PV 100000 200000) (1 / 100) 10).length = 10 := by
  refine ⟨?_, ?_, df_price_length _ _ _⟩
  · unfold PV; norm_num
  · unfold PV; norm_num

/-- C7: at annual rate 0 the effective monthly rate is 0 and the Price
formula's denominator `1 - (1+0)^(-n)` is 0; in the exact-arithmetic model
the total division yields 0 rather than the claimed degenerate payment
`principal/term` (in Python the expression `0.0/0.0` raises
ZeroDivisionError instead of producing `principal/term`). -/
theorem C7_zero_rate_divides_by_zero :
    r_mens 0 = 0 ∧
    (1 : ℚ) - (1 + 0) ^ (-(200 : ℕ) : ℤ) = 0 ∧
    A_price 400000 0 200 = 0 ∧
    (400000 : ℚ) / 200 = 2000 ∧
    A_price 400000 0 200 ≠ 400000 / 200 := by
  have hr : r_mens 0 = 0 := by
    unfold r_mens
    rw [show (1 : ℝ) + 0 / 100 = 1 by norm_num, Real.one_rpow]
    norm_num
  have hA : A_price 400000 0 200 = 0 := by
    unfold A_price
    norm_num
  refine ⟨hr, by norm_num, hA, by norm_num, ?_⟩
  rw [hA]
  norm_num

/-- C3: on the all-positive cash flow `[1, 1]` (no sign change, so no IRR
exists) the root-finder result is NaN, which is *truthy* in Python; the
annualization `(1+NaN)**12-1` therefore runs, stays NaN, and the metric
renders "nan%" — not the "—" the claim requires. -/
theorem C3_irr_notfound_display :
    sameSign [1, 1] = true ∧
    irrResult [1, 1] 0 = PyFloat.nan ∧
    metricTIR (tir_fin (irrResult [1, 1] 0)) = "nan%" ∧
    metricTIR (tir_fin (irrResult [1, 1] 0)) ≠ "—" := by
  refine ⟨by decide, by decide, by decide, by decide⟩

/-- C10: when the computed monthly IRR is exactly the float 0.0, the
truthiness gate `if irr_fin` treats it as absent: the annualized rate is
`None` and the metric renders "—" even though a valid IRR was found. -/
theorem C10_zero_irr_reported_undefined (cf : List ℚ) (root : ℚ)
    (h : irrResult cf root = PyFloat.num 0) :
    tir_fin (irrResult cf root) = none ∧
    metricTIR (tir_fin (irrResult cf root)) = "—" := by
  rw [h]
  exact ⟨rfl, rfl⟩

/-- Witness for C10 at the sign-changing cash flow `[1, -1]`, whose exact
IRR is the monthly rate 0. -/
theorem C10_zero_irr_reported_undefined_witness :
    irrResult [1, -1] 0 = PyFloat.num 0 ∧
    tir_fin (irrResult [1, -1] 0) = none ∧
    metricTIR (tir_fin (irrResult [1, -1] 0)) = "—" := by
  have h : irrResult [1, -1] 0 = PyFloat.num 0 := by decide
  obtain ⟨h1, h2⟩ := C10_zero_irr_reported_undefined [1, -1] 0 h
  exact ⟨h, h1, h2⟩

/-- C9: for identical payment schedules the monthly gap is 0 every month,
the escrow balance stays 0 every month, and break-even never occurs (the
balance ≤ 0 at month 1 with zero gap does not count as break-even). -/
theorem C9_gap_identical_schedules (s : List ℚ) (y : ℚ) :
    gapSeq s s = List.replicate s.length 0 ∧
    escrowBalances (gapSeq s s) y = List.replicate s.length 0 ∧
    breakEven (gapSeq s s) y = none := by
  refine ⟨gapSeq_self s, ?_, ?_⟩
  · unfold escrowBalances
    rw [gapSeq_self s]
    exact escrowGo_zero y s.length
  · unfold breakEven
    rw [gapSeq_self s]
    exact breakEvenGo_zero y s.length 1
